import Mathlib

/-!
Shallow embedding of `src/scripts/process_timetable.py` (the Pulse timetable
consolidation pipeline) and proofs about it.

Modelling conventions:
* Python strings are Lean `String` (in this toolchain a wrapper around
  `List Char`); `str.strip()` is modelled on the six ASCII whitespace
  characters Python strips by default.
* Python `int(s)` is modelled for optional-sign ASCII-digit strings (the only
  shapes that occur in timetable time tokens); it returns `Option Int`,
  `none` standing for a raised `ValueError`.
* Python dicts used as read-only tables are association lists
  (`List (String × β)`) looked up with `List.lookup`; insertion-ordered dict
  construction is modelled by appending first occurrences.
* Python floats are modelled as rationals `ℚ`; `round(x, n)` is decimal
  round-half-to-even on `ℚ` (binary floating-point representation noise is
  out of scope; no claim here depends on rounded coordinate values).
* `list.sort(key=k)` / `list.sort(key=k, reverse=True)` are stable sorts;
  they are modelled by `List.insertionSort` with the corresponding total
  preorder, which is extensionally the unique stable sort for that key.
* Fallible or skipping code paths return `Option`.
-/

namespace Pulse

/-- The six characters Python's default `str.strip()` removes (ASCII range). -/
def isSpace (c : Char) : Bool :=
  c = ' ' || c = '\t' || c = '\n' || c = '\r' || c = '\x0b' || c = '\x0c'

/-- `str.strip()` on the underlying character list. -/
def stripL (l : List Char) : List Char :=
  ((l.dropWhile isSpace).reverse.dropWhile isSpace).reverse

/-- Python `s.strip()`. -/
def pyStrip (s : String) : String := ⟨stripL s.data⟩

/-- Python slice `s[a:b]` (for `0 ≤ a ≤ b`). -/
def pySlice (s : String) (a b : Nat) : String := ⟨(s.data.drop a).take (b - a)⟩

/-- Numeric value of a decimal digit character. -/
def digitVal (c : Char) : Int := (c.toNat : Int) - 48

/-- Digit phase of Python `int(s)`: one or more ASCII digits read in base 10
under the already-parsed sign; `none` models a raised `ValueError`. -/
def pyIntDigits (sign : Int) (digits : List Char) : Option Int :=
  if digits = [] then none
  else if digits.all Char.isDigit then
    some (sign * digits.foldl (fun acc c => 10 * acc + digitVal c) 0)
  else none

/-- Sign phase of Python `int(s)`, applied to the stripped character list:
an optional leading `-`/`+` followed by the digits. -/
def pyIntCore (t : List Char) : Option Int :=
  if t.head? = some '-' then pyIntDigits (-1) t.tail
  else if t.head? = some '+' then pyIntDigits 1 t.tail
  else pyIntDigits 1 t

/-- Python `int(s)`: strip whitespace, optional sign, one or more ASCII
digits; `none` models a raised `ValueError`.  (Underscore digit separators
and non-ASCII digits, which Python also accepts, cannot occur in the
timetable tokens this pipeline slices and are not modelled.) -/
def pyInt? (s : String) : Option Int :=
  pyIntCore (stripL s.data)

/-- `parse_time` from `process_timetable.py` (lines 71–82): parse a working
timetable time token (`HHMM` or `HHMMH`) to seconds since midnight.  The
argument is `Option String` because call sites pass `loc.get(...)`, which may
be `None`; `none`/empty/whitespace input and any `int` failure yield `none`. -/
def parse_time (time_str : Option String) : Option Int :=
  match time_str with
  | none => none
  | some s =>
    if pyStrip s = "" then none
    else
      let t := pyStrip s
      match pyInt? (pySlice t 0 2), pyInt? (pySlice t 2 4) with
      | some h, some m =>
          let sec : Int := if t.data.length > 4 ∧ t.data.get? 4 = some 'H' then 30 else 0
          some (h * 3600 + m * 60 + sec)
      | _, _ => none

/-- `is_tuesday` from `process_timetable.py` (lines 85–89): does a service run
on the representative weekday?  The `days_run` string is the raw
`schedule_days_runs` value (missing field modelled as `""`, matching the
call site's `sched.get('schedule_days_runs', '')`). -/
def is_tuesday (days_run : String) : Bool :=
  if days_run = "" ∨ days_run.data.length < 7 then true
  else days_run.data.get? 1 = some '1'

/-- `STP_PRIORITY` (line 28): C(ancel) > N(ew) > O(verlay) > P(ermanent). -/
def STP_PRIORITY : List (String × Int) := [("C", 4), ("N", 3), ("O", 2), ("P", 1)]

/-- `STP_PRIORITY.get(stp, 0)`, the sort key in `process_schedule`. -/
def prio (stp : String) : Int := (STP_PRIORITY.lookup stp).getD 0

/-- One entry of a schedule record's `schedule_location` list.  Each field is
optional, matching `loc.get(...)` access in the source. -/
structure Loc where
  tiploc_code : Option String
  departure : Option String
  arrival : Option String
  pass : Option String
deriving Repr, DecidableEq

/-- One raw `JsonScheduleV1` record as `process_schedule` reads it (lines
114–119).  `schedule_location` stands for
`sched.get('schedule_segment', {}).get('schedule_location', [])`, with both
missing levels collapsed to the empty list. -/
structure RawRecord where
  CIF_train_uid : Option String
  CIF_stp_indicator : Option String
  schedule_days_runs : Option String
  atoc_code : Option String
  schedule_location : List Loc
deriving Repr, DecidableEq

/-- The per-variant dict appended to `schedules_by_uid[uid]` (lines 127–132). -/
structure Version where
  uid : String
  stp : String
  toc : String
  locations : List Loc
deriving Repr, DecidableEq

/-- A station record from the `stations` table: `{name, lat, lng}`. -/
structure Station where
  name : String
  lat : ℚ
  lng : ℚ
deriving Repr, DecidableEq

/-- A waypoint `[lng, lat, time]` appended to `path` (line 163). -/
def Waypoint : Type := ℚ × ℚ × Int

instance : DecidableEq Waypoint := by unfold Waypoint; infer_instance

/-- One output train dict (lines 176–182).  `from` is a Lean keyword, so the
`'from'`/`'to'` keys become `from_`/`to_`. -/
structure Train where
  id : String
  op : String
  from_ : String
  to_ : String
  path : List Waypoint
deriving DecidableEq

/-- Round-half-to-even to an integer, Python's rounding mode for `round`. -/
def roundHalfEven (x : ℚ) : Int :=
  let f := ⌊x⌋
  if x - f < 1 / 2 then f
  else if 1 / 2 < x - f then f + 1
  else if f % 2 = 0 then f else f + 1

/-- Python `round(x, ndigits)` on the rational model of floats. -/
def pyRound (ndigits : Nat) (x : ℚ) : ℚ :=
  (roundHalfEven (x * 10 ^ ndigits) : ℚ) / 10 ^ ndigits

/-- Python `a or b` on optional ints: `None` and `0` are falsy, so the left
operand is kept only when it is a nonzero time. -/
def pyOr (a b : Option Int) : Option Int :=
  if a = none ∨ a = some 0 then b else a

/-- Body of the per-stop loop in `process_schedule` (lines 149–163): resolve
the stop's TIPLOC through `tiploc_to_crs` and `stations`, pick its time as
`departure or arrival or pass` under Python truthiness, and emit the waypoint
`[round(lng,5), round(lat,5), time]`; `none` models `continue`.  The check
`if not crs or crs not in stations` is also true when the looked-up CRS is
the empty string. -/
def stopWaypoint (t2c : List (String × String)) (stations : List (String × Station))
    (loc : Loc) : Option Waypoint :=
  let tiploc := pyStrip (loc.tiploc_code.getD "")
  match t2c.lookup tiploc with
  | none => none
  | some crs =>
    if crs = "" then none
    else
      match stations.lookup crs with
      | none => none
      | some stn =>
        match pyOr (parse_time loc.departure)
            (pyOr (parse_time loc.arrival) (parse_time loc.pass)) with
        | none => none
        | some time => some (pyRound 5 stn.lng, pyRound 5 stn.lat, time)

/-- The `path` list accumulated by the per-stop loop. -/
def buildPath (t2c : List (String × String)) (stations : List (String × Station))
    (locs : List Loc) : List Waypoint :=
  locs.filterMap (stopWaypoint t2c stations)

/-- The sort key relation of line 140: left variant's STP priority ≥ right's
(a descending stable sort keeps an earlier element before a later equal one,
which this total preorder's insertion sort reproduces). -/
def prioGE (a b : Version) : Prop := prio b.stp ≤ prio a.stp

instance : DecidableRel prioGE := fun a b => inferInstanceAs (Decidable (prio b.stp ≤ prio a.stp))

/-- `versions.sort(key=lambda v: STP_PRIORITY.get(v['stp'], 0), reverse=True)`
(line 140): a stable sort descending on STP priority, modelled by insertion
sort under the total preorder `prioGE`. -/
def sortVersions (vs : List Version) : List Version :=
  List.insertionSort prioGE vs

/-- The sort key relation of line 169: left waypoint's timestamp ≤ right's. -/
def timeLE (a b : Waypoint) : Prop := a.2.2 ≤ b.2.2

instance : DecidableRel timeLE := fun a b => inferInstanceAs (Decidable (a.2.2 ≤ b.2.2))

instance : IsTotal Waypoint timeLE := ⟨fun a b => le_total a.2.2 b.2.2⟩

instance : IsTrans Waypoint timeLE := ⟨fun _ _ _ h1 h2 => le_trans h1 h2⟩

/-- `path.sort(key=lambda p: p[2])` (line 169): stable ascending sort on the
waypoint timestamp. -/
def sortPath (p : List Waypoint) : List Waypoint :=
  List.insertionSort timeLE p

/-- The record-reading loop of `process_schedule` (lines 105–132) after JSON
decoding: extract each record's fields with their `get` defaults, skip records
with no uid or no locations and those not running on the representative
Tuesday, and keep the rest in feed order. -/
def ingest (records : List RawRecord) : List Version :=
  records.filterMap fun r =>
    let uid := r.CIF_train_uid.getD ""
    let stp := r.CIF_stp_indicator.getD "P"
    let days_run := r.schedule_days_runs.getD ""
    let toc := r.atoc_code.getD ""
    let locations := r.schedule_location
    if uid = "" ∨ locations = [] then none
    else if ¬ is_tuesday days_run then none
    else some ⟨uid, stp, toc, locations⟩

/-- The iteration order of `schedules_by_uid` (a `defaultdict` populated by
appending): uids in order of first appearance. -/
def uidOrder (vs : List Version) : List String := (vs.map Version.uid).eraseDups

/-- The list `schedules_by_uid[u]`: the ingested variants with uid `u`, in
feed order. -/
def group (vs : List Version) (u : String) : List Version :=
  vs.filter fun v => v.uid == u

/-- `origin.get('name', '?')` / `dest.get('name', '?')` (lines 171–180):
resolve a raw stop's display name through both tables, with `''` standing in
for a failed `tiploc_to_crs.get(..., '')` and `'?'` for a failed station or
name lookup.  The argument is the optional first/last element of the raw stop
list (always present for pipeline-built groups, whose location lists are
nonempty). -/
def rawName (t2c : List (String × String)) (stations : List (String × Station))
    (mloc : Option Loc) : String :=
  let tip := pyStrip ((mloc.bind Loc.tiploc_code).getD "")
  match stations.lookup ((t2c.lookup tip).getD "") with
  | none => "?"
  | some stn => stn.name

/-- Body of the per-uid loop of `process_schedule` (lines 138–182): stable-sort
the group's variants by STP priority descending, take the first, drop the uid
if that winner is a cancellation, build and time-sort the path, drop the uid
if fewer than 2 waypoints survive, and otherwise emit the train dict.
`[]` cannot occur for pipeline-built groups (the defaultdict only holds uids
that received at least one append). -/
def processGroup (t2c : List (String × String)) (stations : List (String × Station))
    (uid : String) (versions : List Version) : Option Train :=
  match sortVersions versions with
  | [] => none
  | best :: _ =>
    if best.stp = "C" then none
    else
      let path := buildPath t2c stations best.locations
      if path.length < 2 then none
      else
        some { id := uid, op := best.toc,
               from_ := rawName t2c stations best.locations.head?,
               to_ := rawName t2c stations best.locations.getLast?,
               path := sortPath path }

/-- `process_schedule` (lines 92–185) after JSON decoding: ingest, group by
uid, resolve each group, and collect the surviving trains in uid-first-seen
order. -/
def process_schedule (t2c : List (String × String)) (stations : List (String × Station))
    (records : List RawRecord) : List Train :=
  let vs := ingest records
  (uidOrder vs).filterMap fun u => processGroup t2c stations u (group vs u)

/-- An operator entry `{name, color}` of the allow-list / output table. -/
structure Operator where
  name : String
  color : String
deriving Repr, DecidableEq

/-- `KNOWN_OPERATORS` (lines 201–230): the static operator allow-list. -/
def KNOWN_OPERATORS : List (String × Operator) :=
  [ ("NT", ⟨"Northern Trains", "#262262"⟩),
    ("SE", ⟨"Southeastern", "#009ddc"⟩),
    ("SR", ⟨"ScotRail", "#1a5ba5"⟩),
    ("SW", ⟨"South Western Railway", "#e11837"⟩),
    ("GW", ⟨"Great Western Railway", "#0a493e"⟩),
    ("SN", ⟨"Southern", "#8cc63e"⟩),
    ("LO", ⟨"London Overground", "#ef7b10"⟩),
    ("AW", ⟨"Transport for Wales", "#e4131b"⟩),
    ("LE", ⟨"Greater Anglia", "#d70428"⟩),
    ("LM", ⟨"West Midlands Trains", "#ff8300"⟩),
    ("TL", ⟨"Thameslink", "#e83673"⟩),
    ("ME", ⟨"Merseyrail", "#ffd500"⟩),
    ("XR", ⟨"Elizabeth Line", "#9364cc"⟩),
    ("TP", ⟨"TransPennine Express", "#00a4e4"⟩),
    ("EM", ⟨"East Midlands Railway", "#6b2c91"⟩),
    ("VT", ⟨"Avanti West Coast", "#e4131b"⟩),
    ("CC", ⟨"c2c", "#b71c8e"⟩),
    ("GN", ⟨"Great Northern", "#e83673"⟩),
    ("CH", ⟨"Chiltern Railways", "#00bfff"⟩),
    ("XC", ⟨"CrossCountry", "#660f21"⟩),
    ("GR", ⟨"LNER", "#ce0e2d"⟩),
    ("HX", ⟨"Heathrow Express", "#532e63"⟩),
    ("GX", ⟨"Gatwick Express", "#e11837"⟩),
    ("CS", ⟨"Caledonian Sleeper", "#1e3264"⟩),
    ("GC", ⟨"Grand Central", "#2d2926"⟩),
    ("IL", ⟨"Island Line", "#1fa14a"⟩),
    ("TW", ⟨"Tyne & Wear Metro", "#ffd500"⟩),
    ("LT", ⟨"London Tramlink", "#6cc24a"⟩) ]

/-- Line 233: keep only trains whose operator code is in the allow-list. -/
def opFilter (trains : List Train) : List Train :=
  trains.filter fun t => (KNOWN_OPERATORS.lookup t.op).isSome

/-- Line 238, per waypoint: `[round(p[0],4), round(p[1],4), p[2]]`. -/
def reduceWaypoint (p : Waypoint) : Waypoint :=
  (pyRound 4 p.1, pyRound 4 p.2.1, p.2.2)

/-- Lines 237–238: the reduced-precision pass over every surviving path. -/
def reducePaths (trains : List Train) : List Train :=
  trains.map fun t => { t with path := t.path.map reduceWaypoint }

/-- Lines 241–246: the insertion-ordered `operators` dict, keyed by first
occurrence among the surviving trains. -/
def collectOperators (trains : List Train) : List (String × Operator) :=
  trains.foldl
    (fun ops t =>
      if (ops.lookup t.op).isSome then ops
      else ops ++ [(t.op, (KNOWN_OPERATORS.lookup t.op).getD ⟨t.op, "#ffb830"⟩)])
    []

/-- The output structure assembled at lines 248–256 (`meta` flattened). -/
structure Output where
  date : String
  total_trains : Nat
  source : String
  operators : List (String × Operator)
  trains : List Train
deriving DecidableEq

/-- The pure core of `main` (lines 196–256): everything between loading the
two tables and serialising `data`.  `datetime.now().strftime('%Y-%m-%d')` is
an effect, modelled as the explicit `today` argument. -/
def main_result (t2c : List (String × String)) (stations : List (String × Station))
    (records : List RawRecord) (today : String) : Output :=
  let trains0 := process_schedule t2c stations records
  let trains1 := opFilter trains0
  let trains2 := reducePaths trains1
  { date := today, total_trains := trains2.length, source := "Network Rail SCHEDULE",
    operators := collectOperators trains2, trains := trains2 }

/-- Specification-side selector: the first variant of the group attaining the
maximal STP priority (maximum priority, ties broken by earliest feed order). -/
def firstMax : List Version → Option Version
  | [] => none
  | v :: rest =>
    match firstMax rest with
    | none => some v
    | some w => if prio v.stp < prio w.stp then some w else some v

theorem head?_orderedInsert {α : Type} (r : α → α → Prop) [DecidableRel r] (a : α)
    (l : List α) :
    (List.orderedInsert r a l).head? =
      some (match l.head? with
            | none => a
            | some b => if r a b then a else b) := by
  cases l with
  | nil => rfl
  | cons b t =>
    by_cases h : r a b
    · simp [List.orderedInsert, h]
    · simp [List.orderedInsert, h]

/-- The head of the stable priority-descending sort is the first
maximal-priority variant. -/
theorem head?_sortVersions (vs : List Version) :
    (sortVersions vs).head? = firstMax vs := by
  induction vs with
  | nil => rfl
  | cons v rest ih =>
    unfold sortVersions at ih ⊢
    rw [show List.insertionSort prioGE (v :: rest) =
          List.orderedInsert prioGE v (List.insertionSort prioGE rest) from rfl]
    rw [head?_orderedInsert, ih]
    cases hfm : firstMax rest with
    | none => simp [firstMax, hfm]
    | some w =>
      by_cases h : prio v.stp < prio w.stp
      · have hng : ¬ prioGE v w := by unfold prioGE; exact not_le.mpr h
        simp [firstMax, hfm, h, hng]
      · have hg : prioGE v w := not_lt.mp h
        simp [firstMax, hfm, h, hg]

theorem firstMax_eq_none_iff (vs : List Version) : firstMax vs = none ↔ vs = [] := by
  cases vs with
  | nil => simp [firstMax]
  | cons v rest =>
    simp only [firstMax]
    cases firstMax rest with
    | none => simp
    | some w =>
      by_cases h : prio v.stp < prio w.stp <;> simp [h]

theorem firstMax_mem {vs : List Version} {b : Version} (h : firstMax vs = some b) :
    b ∈ vs := by
  induction vs with
  | nil => simp [firstMax] at h
  | cons v rest ih =>
    simp only [firstMax] at h
    cases hfm : firstMax rest with
    | none =>
      simp only [hfm] at h
      simp only [Option.some.injEq] at h
      exact h ▸ List.mem_cons_self v rest
    | some w =>
      simp only [hfm] at h
      by_cases hlt : prio v.stp < prio w.stp
      · rw [if_pos hlt] at h
        simp only [Option.some.injEq] at h
        exact List.mem_cons_of_mem v (ih (h ▸ hfm))
      · rw [if_neg hlt] at h
        simp only [Option.some.injEq] at h
        exact h ▸ List.mem_cons_self v rest

theorem firstMax_maximal : ∀ {vs : List Version} {b : Version}, firstMax vs = some b →
    ∀ v ∈ vs, prio v.stp ≤ prio b.stp := by
  intro vs
  induction vs with
  | nil => intro b h; simp [firstMax] at h
  | cons v rest ih =>
    intro b h
    simp only [firstMax] at h
    cases hfm : firstMax rest with
    | none =>
      simp only [hfm] at h
      simp only [Option.some.injEq] at h
      have hrest : rest = [] := (firstMax_eq_none_iff rest).mp hfm
      subst hrest
      intro x hx
      simp only [List.mem_singleton] at hx
      subst hx; exact h ▸ le_refl _
    | some w =>
      simp only [hfm] at h
      by_cases hlt : prio v.stp < prio w.stp
      · rw [if_pos hlt] at h
        simp only [Option.some.injEq] at h
        subst h
        intro x hx
        rcases List.mem_cons.mp hx with hx | hx
        · exact hx ▸ le_of_lt hlt
        · exact ih hfm x hx
      · rw [if_neg hlt] at h
        simp only [Option.some.injEq] at h
        subst h
        intro x hx
        rcases List.mem_cons.mp hx with hx | hx
        · exact hx ▸ le_refl _
        · exact (ih hfm x hx).trans (not_lt.mp hlt)

theorem firstMax_earliest : ∀ {vs : List Version} {b : Version}, firstMax vs = some b →
    ∃ pre suf, vs = pre ++ b :: suf ∧ ∀ v ∈ pre, prio v.stp < prio b.stp := by
  intro vs
  induction vs with
  | nil => intro b h; simp [firstMax] at h
  | cons v rest ih =>
    intro b h
    simp only [firstMax] at h
    cases hfm : firstMax rest with
    | none =>
      simp only [hfm] at h
      simp only [Option.some.injEq] at h
      exact ⟨[], rest, by simp [h], by simp⟩
    | some w =>
      simp only [hfm] at h
      by_cases hlt : prio v.stp < prio w.stp
      · rw [if_pos hlt] at h
        simp only [Option.some.injEq] at h
        subst h
        obtain ⟨pre, suf, hsplit, hpre⟩ := ih hfm
        exact ⟨v :: pre, suf, by simp [hsplit], by
          intro x hx
          rcases List.mem_cons.mp hx with hx | hx
          · exact hx ▸ hlt
          · exact hpre x hx⟩
      · rw [if_neg hlt] at h
        simp only [Option.some.injEq] at h
        exact ⟨[], rest, by simp [h], by simp⟩

/-- `processGroup` depends on the group only through its first
maximal-priority variant. -/
theorem processGroup_eq_firstMax (t2c : List (String × String))
    (stations : List (String × Station)) (u : String) (vs : List Version) :
    processGroup t2c stations u vs =
      match firstMax vs with
      | none => none
      | some best =>
        if best.stp = "C" then none
        else
          if (buildPath t2c stations best.locations).length < 2 then none
          else
            some { id := u, op := best.toc,
                   from_ := rawName t2c stations best.locations.head?,
                   to_ := rawName t2c stations best.locations.getLast?,
                   path := sortPath (buildPath t2c stations best.locations) } := by
  have h := head?_sortVersions vs
  unfold processGroup
  cases hs : sortVersions vs with
  | nil => rw [hs] at h; rw [← h]; rfl
  | cons best rest => rw [hs] at h; rw [← h]; rfl

/-- Elimination form of `processGroup`: it emits a train exactly when the
group's first maximal-priority variant exists, is not a cancellation, and
yields at least two resolvable waypoints. -/
theorem processGroup_eq_some_iff (t2c : List (String × String))
    (st : List (String × Station)) (u : String) (vs : List Version) (t : Train) :
    processGroup t2c st u vs = some t ↔
      ∃ best, firstMax vs = some best ∧ best.stp ≠ "C" ∧
        2 ≤ (buildPath t2c st best.locations).length ∧
        t = { id := u, op := best.toc,
              from_ := rawName t2c st best.locations.head?,
              to_ := rawName t2c st best.locations.getLast?,
              path := sortPath (buildPath t2c st best.locations) } := by
  rw [processGroup_eq_firstMax]
  cases hfm : firstMax vs with
  | none => simp
  | some best =>
    constructor
    · intro h
      dsimp only at h
      by_cases hC : best.stp = "C"
      · rw [if_pos hC] at h; cases h
      · rw [if_neg hC] at h
        by_cases hlen : (buildPath t2c st best.locations).length < 2
        · rw [if_pos hlen] at h; cases h
        · rw [if_neg hlen] at h
          exact ⟨best, rfl, hC, not_lt.mp hlen, (Option.some.inj h).symm⟩
    · rintro ⟨b', hb', hC, hlen, ht⟩
      have hbb : b' = best := Option.some.inj hb'.symm
      subst hbb
      dsimp only
      rw [if_neg hC, if_neg (not_lt.mpr hlen), ht]

/-- Any train emitted for a group carries the group's uid as its id. -/
theorem processGroup_some_id {t2c : List (String × String)}
    {st : List (String × Station)} {u : String} {vs : List Version} {t : Train}
    (h : processGroup t2c st u vs = some t) : t.id = u := by
  obtain ⟨best, -, -, -, ht⟩ := (processGroup_eq_some_iff t2c st u vs t).mp h
  rw [ht]

/-- Membership in the final output's train list, unfolded through the
reduced-precision pass, the operator filter and the per-uid resolution. -/
theorem mem_main_result_trains {t2c : List (String × String)}
    {st : List (String × Station)} {recs : List RawRecord} {today : String}
    {t : Train} :
    t ∈ (main_result t2c st recs today).trains ↔
      ∃ t1, (∃ u ∈ uidOrder (ingest recs),
               processGroup t2c st u (group (ingest recs) u) = some t1) ∧
            (KNOWN_OPERATORS.lookup t1.op).isSome = true ∧
            t = { t1 with path := t1.path.map reduceWaypoint } := by
  show t ∈ reducePaths (opFilter (process_schedule t2c st recs)) ↔ _
  rw [reducePaths, opFilter, process_schedule]
  simp only [List.mem_map, List.mem_filter, List.mem_filterMap]
  constructor
  · rintro ⟨t1, ⟨⟨u, hu, hpg⟩, hop⟩, ht⟩
    exact ⟨t1, ⟨u, hu, hpg⟩, hop, ht.symm⟩
  · rintro ⟨t1, ⟨u, hu, hpg⟩, hop, ht⟩
    exact ⟨t1, ⟨⟨u, hu, hpg⟩, hop⟩, ht.symm⟩

/-- A decimal digit character is not a sign character and not whitespace. -/
theorem isDigit_not_sign_not_space {c : Char} (h : c.isDigit = true) :
    c ≠ '-' ∧ c ≠ '+' ∧ isSpace c = false := by
  refine ⟨fun e => ?_, fun e => ?_, ?_⟩
  · rw [e] at h; exact absurd h (by decide)
  · rw [e] at h; exact absurd h (by decide)
  · cases hsp : isSpace c with
    | false => rfl
    | true =>
      exfalso
      unfold isSpace at hsp
      simp only [Bool.or_eq_true, decide_eq_true_eq] at hsp
      rcases hsp with ((((e | e) | e) | e) | e) | e <;> subst e <;>
        exact absurd h (by decide)

theorem mem_dropWhile_of_not {c : Char} {l : List Char} (hc : c ∈ l)
    (h : isSpace c = false) : c ∈ l.dropWhile isSpace := by
  induction l with
  | nil => cases hc
  | cons a t ih =>
    rw [List.dropWhile_cons]
    by_cases ha : isSpace a = true
    · rw [if_pos ha]
      rcases List.mem_cons.mp hc with e | e
      · subst e; rw [h] at ha; cases ha
      · exact ih e
    · rw [if_neg ha]
      exact hc

/-- Stripping only removes whitespace: a non-whitespace member survives. -/
theorem mem_stripL {c : Char} {l : List Char} (hc : c ∈ l) (h : isSpace c = false) :
    c ∈ stripL l := by
  unfold stripL
  rw [List.mem_reverse]
  exact mem_dropWhile_of_not (List.mem_reverse.mpr (mem_dropWhile_of_not hc h)) h

/-- Stripping a list with no whitespace at all is the identity. -/
theorem stripL_eq_self {l : List Char} (h : ∀ c ∈ l, isSpace c = false) :
    stripL l = l := by
  unfold stripL
  have h1 : l.dropWhile isSpace = l := by
    cases l with
    | nil => rfl
    | cons a t =>
      rw [List.dropWhile_cons, if_neg (by simp [h a (List.mem_cons_self a t)])]
  rw [h1]
  have h2 : l.reverse.dropWhile isSpace = l.reverse := by
    cases hr : l.reverse with
    | nil => rfl
    | cons a t =>
      rw [List.dropWhile_cons, if_neg]
      have ha : a ∈ l := by rw [← List.mem_reverse, hr]; exact List.mem_cons_self a t
      simp [h a ha]
  rw [h2, List.reverse_reverse]

theorem mk_ne_empty {l : List Char} (h : l ≠ []) : (⟨l⟩ : String) ≠ "" :=
  fun e => h (congrArg String.data e)

theorem pyIntDigits_of_digits {sign : Int} {l : List Char} (hne : l ≠ [])
    (hd : ∀ c ∈ l, c.isDigit = true) :
    pyIntDigits sign l = some (sign * l.foldl (fun acc c => 10 * acc + digitVal c) 0) := by
  unfold pyIntDigits
  rw [if_neg hne, if_pos (List.all_eq_true.mpr hd)]

/-- `int()` of a nonempty all-digit token is its base-10 value. -/
theorem pyInt?_digits {l : List Char} (hne : l ≠ []) (hd : ∀ c ∈ l, c.isDigit = true) :
    pyInt? ⟨l⟩ = some (l.foldl (fun acc c => 10 * acc + digitVal c) 0) := by
  unfold pyInt?
  rw [show (String.mk l).data = l from rfl,
    stripL_eq_self (fun c hc => (isDigit_not_sign_not_space (hd c hc)).2.2)]
  unfold pyIntCore
  cases l with
  | nil => exact absurd rfl hne
  | cons a t =>
    have ha := hd a (List.mem_cons_self a t)
    obtain ⟨hm, hp, -⟩ := isDigit_not_sign_not_space ha
    rw [show (a :: t).head? = some a from rfl]
    rw [if_neg (by simp [hm]), if_neg (by simp [hp])]
    rw [pyIntDigits_of_digits (by simp) hd, one_mul]

theorem pyIntDigits_none {sign : Int} {l : List Char} {c : Char} (hc : c ∈ l)
    (hnd : ¬ c.isDigit = true) : pyIntDigits sign l = none := by
  unfold pyIntDigits
  rw [if_neg (List.ne_nil_of_mem hc),
    if_neg (fun hall => hnd (List.all_eq_true.mp hall c hc))]

/-- `int()` of a token containing a non-digit, non-sign, non-whitespace
character fails. -/
theorem pyInt?_none_of_bad {l : List Char} {c : Char} (hc : c ∈ l)
    (hnd : ¬ c.isDigit = true) (hm : c ≠ '-') (hp : c ≠ '+')
    (hsp : isSpace c = false) : pyInt? ⟨l⟩ = none := by
  unfold pyInt?
  rw [show (String.mk l).data = l from rfl]
  have hcs : c ∈ stripL l := mem_stripL hc hsp
  unfold pyIntCore
  cases hst : stripL l with
  | nil => rw [hst] at hcs; cases hcs
  | cons a t =>
    rw [hst] at hcs
    rw [show (a :: t).head? = some a from rfl]
    by_cases ha : a = '-'
    · rw [if_pos (by rw [ha])]
      have hct : c ∈ t := by
        rcases List.mem_cons.mp hcs with e | e
        · exact absurd (e.trans ha) hm
        · exact e
      exact pyIntDigits_none hct hnd
    · rw [if_neg (by simp [ha])]
      by_cases hb : a = '+'
      · rw [if_pos (by rw [hb])]
        have hct : c ∈ t := by
          rcases List.mem_cons.mp hcs with e | e
          · exact absurd (e.trans hb) hp
          · exact e
        exact pyIntDigits_none hct hnd
      · rw [if_neg (by simp [hb])]
        exact pyIntDigits_none hcs hnd

theorem pyInt?_two {c1 c2 : Char} (h1 : c1.isDigit = true) (h2 : c2.isDigit = true) :
    pyInt? ⟨[c1, c2]⟩ = some (10 * digitVal c1 + digitVal c2) := by
  rw [pyInt?_digits (by simp)
    (by intro c hc; simp only [List.mem_cons, List.mem_singleton] at hc
        rcases hc with e | e | e
        · exact e ▸ h1
        · exact e ▸ h2
        · cases e)]
  simp only [List.foldl_cons, List.foldl_nil, Option.some.injEq]
  ring

theorem pyInt?_one {c : Char} (h : c.isDigit = true) :
    pyInt? ⟨[c]⟩ = some (digitVal c) := by
  rw [pyInt?_digits (by simp)
    (by intro x hx; simp only [List.mem_singleton] at hx; exact hx ▸ h)]
  simp only [List.foldl_cons, List.foldl_nil, Option.some.injEq]
  ring

/-- `parse_time` of an empty-after-stripping token is absent. -/
theorem parse_time_strip_nil {s : String} (h : stripL s.data = []) :
    parse_time (some s) = none := by
  unfold parse_time
  dsimp only
  rw [if_pos (show pyStrip s = "" from congrArg String.mk h)]

/-- `parse_time` of a token at most 2 characters long after stripping is
absent (the minute slice is empty, so `int` fails). -/
theorem parse_time_short {s : String} (h : (stripL s.data).length ≤ 2) :
    parse_time (some s) = none := by
  by_cases hnil : stripL s.data = []
  · exact parse_time_strip_nil hnil
  · unfold parse_time
    dsimp only
    rw [if_neg (show ¬ pyStrip s = "" from fun e => hnil (congrArg String.data e))]
    have hsl : pySlice (pyStrip s) 2 4 = ⟨[]⟩ := by
      show (⟨((stripL s.data).drop 2).take (4 - 2)⟩ : String) = ⟨[]⟩
      rw [List.drop_eq_nil_of_le h]
      rfl
    rw [hsl, show pyInt? ⟨[]⟩ = none from rfl]
    cases pyInt? (pySlice (pyStrip s) 0 2) <;> rfl

/-- `parse_time` of a token with a non-digit, non-sign, non-whitespace
character among the first four stripped characters is absent. -/
theorem parse_time_bad_char {s : String} {c : Char} (hc : c ∈ (stripL s.data).take 4)
    (hnd : ¬ c.isDigit = true) (hm : c ≠ '-') (hp : c ≠ '+')
    (hsp : isSpace c = false) : parse_time (some s) = none := by
  have hne : ¬ stripL s.data = [] := by
    intro h
    rw [h] at hc
    cases hc
  unfold parse_time
  dsimp only
  rw [if_neg (show ¬ pyStrip s = "" from fun e => hne (congrArg String.data e))]
  have hc2 : c ∈ (stripL s.data).take 2 ++ ((stripL s.data).drop 2).take 2 := by
    rw [← List.take_add]
    exact hc
  rcases List.mem_append.mp hc2 with h | h
  · have hbad : pyInt? (pySlice (pyStrip s) 0 2) = none := by
      show pyInt? ⟨((stripL s.data).drop 0).take (2 - 0)⟩ = none
      exact pyInt?_none_of_bad (by simpa using h) hnd hm hp hsp
    rw [hbad]
  · have hbad : pyInt? (pySlice (pyStrip s) 2 4) = none := by
      show pyInt? ⟨((stripL s.data).drop 2).take (4 - 2)⟩ = none
      exact pyInt?_none_of_bad (by simpa using h) hnd hm hp hsp
    rw [hbad]
    cases pyInt? (pySlice (pyStrip s) 0 2) <;> rfl

/-- `parse_time` of a 4-digit token `HHMM`. -/
theorem parse_time_hhmm {c1 c2 c3 c4 : Char} (h1 : c1.isDigit = true)
    (h2 : c2.isDigit = true) (h3 : c3.isDigit = true) (h4 : c4.isDigit = true) :
    parse_time (some ⟨[c1, c2, c3, c4]⟩) =
      some ((10 * digitVal c1 + digitVal c2) * 3600 +
        (10 * digitVal c3 + digitVal c4) * 60) := by
  have hsp : ∀ c ∈ [c1, c2, c3, c4], isSpace c = false := by
    intro c hc
    simp only [List.mem_cons, List.mem_singleton] at hc
    rcases hc with e | e | e | e | e
    · exact e ▸ (isDigit_not_sign_not_space h1).2.2
    · exact e ▸ (isDigit_not_sign_not_space h2).2.2
    · exact e ▸ (isDigit_not_sign_not_space h3).2.2
    · exact e ▸ (isDigit_not_sign_not_space h4).2.2
    · cases e
  have hps : pyStrip ⟨[c1, c2, c3, c4]⟩ = ⟨[c1, c2, c3, c4]⟩ :=
    congrArg String.mk (stripL_eq_self hsp)
  unfold parse_time
  dsimp only
  rw [hps, if_neg (mk_ne_empty (by simp))]
  rw [show pySlice (⟨[c1, c2, c3, c4]⟩ : String) 0 2 = ⟨[c1, c2]⟩ from rfl,
    show pySlice (⟨[c1, c2, c3, c4]⟩ : String) 2 4 = ⟨[c3, c4]⟩ from rfl,
    pyInt?_two h1 h2, pyInt?_two h3 h4]
  dsimp only
  rw [if_neg (by simp)]
  simp only [Option.some.injEq]
  ring

/-- `parse_time` of a 5-character token `HHMMH`: the marker adds 30 s. -/
theorem parse_time_hhmmH {c1 c2 c3 c4 : Char} (h1 : c1.isDigit = true)
    (h2 : c2.isDigit = true) (h3 : c3.isDigit = true) (h4 : c4.isDigit = true) :
    parse_time (some ⟨[c1, c2, c3, c4, 'H']⟩) =
      some ((10 * digitVal c1 + digitVal c2) * 3600 +
        (10 * digitVal c3 + digitVal c4) * 60 + 30) := by
  have hsp : ∀ c ∈ [c1, c2, c3, c4, 'H'], isSpace c = false := by
    intro c hc
    simp only [List.mem_cons, List.mem_singleton] at hc
    rcases hc with e | e | e | e | e | e
    · exact e ▸ (isDigit_not_sign_not_space h1).2.2
    · exact e ▸ (isDigit_not_sign_not_space h2).2.2
    · exact e ▸ (isDigit_not_sign_not_space h3).2.2
    · exact e ▸ (isDigit_not_sign_not_space h4).2.2
    · exact e ▸ (by decide)
    · cases e
  have hps : pyStrip ⟨[c1, c2, c3, c4, 'H']⟩ = ⟨[c1, c2, c3, c4, 'H']⟩ :=
    congrArg String.mk (stripL_eq_self hsp)
  unfold parse_time
  dsimp only
  rw [hps, if_neg (mk_ne_empty (by simp))]
  rw [show pySlice (⟨[c1, c2, c3, c4, 'H']⟩ : String) 0 2 = ⟨[c1, c2]⟩ from rfl,
    show pySlice (⟨[c1, c2, c3, c4, 'H']⟩ : String) 2 4 = ⟨[c3, c4]⟩ from rfl,
    pyInt?_two h1 h2, pyInt?_two h3 h4]
  dsimp only
  rw [if_pos (by exact ⟨by norm_num, rfl⟩)]

/-- `parse_time` of a 3-digit token: the single third character becomes the
minute (the source accepts this; see the C5 counterexample). -/
theorem parse_time_hm3 {c1 c2 c3 : Char} (h1 : c1.isDigit = true)
    (h2 : c2.isDigit = true) (h3 : c3.isDigit = true) :
    parse_time (some ⟨[c1, c2, c3]⟩) =
      some ((10 * digitVal c1 + digitVal c2) * 3600 + digitVal c3 * 60) := by
  have hsp : ∀ c ∈ [c1, c2, c3], isSpace c = false := by
    intro c hc
    simp only [List.mem_cons, List.mem_singleton] at hc
    rcases hc with e | e | e | e
    · exact e ▸ (isDigit_not_sign_not_space h1).2.2
    · exact e ▸ (isDigit_not_sign_not_space h2).2.2
    · exact e ▸ (isDigit_not_sign_not_space h3).2.2
    · cases e
  have hps : pyStrip ⟨[c1, c2, c3]⟩ = ⟨[c1, c2, c3]⟩ :=
    congrArg String.mk (stripL_eq_self hsp)
  unfold parse_time
  dsimp only
  rw [hps, if_neg (mk_ne_empty (by simp))]
  rw [show pySlice (⟨[c1, c2, c3]⟩ : String) 0 2 = ⟨[c1, c2]⟩ from rfl,
    show pySlice (⟨[c1, c2, c3]⟩ : String) 2 4 = ⟨[c3]⟩ from rfl,
    pyInt?_two h1 h2, pyInt?_one h3]
  dsimp only
  rw [if_neg (by simp)]
  simp only [Option.some.injEq]
  ring

/-- C5 counterexample: the 3-character token "080" is shorter than the
4-character `HHMM` format, yet the Time Codec does not return "absent": it
parses hour 08 and single-digit minute 0, yielding 28800 s. -/
theorem C5_counterexample :
    ("080" : String).data.length < 4 ∧ parse_time (some "080") = some 28800 :=
  ⟨by decide, by decide⟩

/-- C5 amended: for a token whose (stripped) characters are four digits, the
Time Codec returns hour·3600 + minute·60, plus exactly 30 when a fifth
marker character 'H' follows; a missing token, a token empty or whitespace
after stripping, a token of at most 2 characters after stripping, and a
token with a non-digit, non-sign, non-whitespace character among its first
four stripped characters all yield "absent" (and, the embedding being total,
no exception reaches the caller); however a 3-character digit token is NOT
absent: its third character is parsed as a one-digit minute. -/
theorem C5_time_codec :
    (∀ c1 c2 c3 c4 : Char, c1.isDigit = true → c2.isDigit = true →
       c3.isDigit = true → c4.isDigit = true →
       parse_time (some ⟨[c1, c2, c3, c4]⟩) =
         some ((10 * digitVal c1 + digitVal c2) * 3600 +
           (10 * digitVal c3 + digitVal c4) * 60) ∧
       parse_time (some ⟨[c1, c2, c3, c4, 'H']⟩) =
         some ((10 * digitVal c1 + digitVal c2) * 3600 +
           (10 * digitVal c3 + digitVal c4) * 60 + 30)) ∧
    (parse_time none = none) ∧
    (∀ s : String, stripL s.data = [] → parse_time (some s) = none) ∧
    (∀ s : String, (stripL s.data).length ≤ 2 → parse_time (some s) = none) ∧
    (∀ c1 c2 c3 : Char, c1.isDigit = true → c2.isDigit = true → c3.isDigit = true →
       parse_time (some ⟨[c1, c2, c3]⟩) =
         some ((10 * digitVal c1 + digitVal c2) * 3600 + digitVal c3 * 60)) ∧
    (∀ (s : String) (c : Char), c ∈ (stripL s.data).take 4 → ¬ c.isDigit = true →
       c ≠ '-' → c ≠ '+' → isSpace c = false → parse_time (some s) = none) :=
  ⟨fun c1 c2 c3 c4 h1 h2 h3 h4 =>
     ⟨parse_time_hhmm h1 h2 h3 h4, parse_time_hhmmH h1 h2 h3 h4⟩,
   rfl,
   fun s h => parse_time_strip_nil h,
   fun s h => parse_time_short h,
   fun c1 c2 c3 h1 h2 h3 => parse_time_hm3 h1 h2 h3,
   fun s c hc hnd hm hp hsp => parse_time_bad_char hc hnd hm hp hsp⟩

/-- Witness for C5 amended at concrete tokens. -/
theorem C5_time_codec_witness :
    parse_time (some "0830") = some 30600 ∧
    parse_time (some "0830H") = some 30630 ∧
    parse_time none = none ∧
    parse_time (some "   ") = none ∧
    parse_time (some "08") = none ∧
    parse_time (some "083") = some 28980 ∧
    parse_time (some "08a0") = none :=
  ⟨(C5_time_codec.1 '0' '8' '3' '0' (by decide) (by decide) (by decide) (by decide)).1,
   (C5_time_codec.1 '0' '8' '3' '0' (by decide) (by decide) (by decide) (by decide)).2,
   C5_time_codec.2.1,
   C5_time_codec.2.2.1 "   " (by decide),
   C5_time_codec.2.2.2.1 "08" (by decide),
   C5_time_codec.2.2.2.2.1 '0' '8' '3' (by decide) (by decide) (by decide),
   C5_time_codec.2.2.2.2.2 "08a0" 'a' (by decide) (by decide) (by decide) (by decide)
     (by decide)⟩

/-- C1 (code bug demonstration): a stop whose `departure` token parses to
midnight (0 seconds since midnight) and which has no arrival or pass time
resolves both its location and its departure time, yet the per-stop loop
drops it, because Python `or` treats the integer 0 as falsy — contradicting
the code's own comment "Use working times (departure > arrival > pass)" and
the spec's drop condition.  The final conjunct shows the related preference
violation: when an arrival is also present, the arrival time displaces the
present and parseable midnight departure. -/
theorem C1_midnight_departure_dropped :
    parse_time (some "0000") = some 0 ∧
    [("TIPA", "AAA")].lookup "TIPA" = some "AAA" ∧
    ([("AAA", (⟨"Alpha", 51, 0⟩ : Station))].lookup "AAA").isSome = true ∧
    stopWaypoint [("TIPA", "AAA")] [("AAA", ⟨"Alpha", 51, 0⟩)]
      ⟨some "TIPA", some "0000", none, none⟩ = none ∧
    (stopWaypoint [("TIPA", "AAA")] [("AAA", ⟨"Alpha", 51, 0⟩)]
      ⟨some "TIPA", some "0000", some "0100", none⟩).map (fun w => w.2.2) = some 3600 :=
  ⟨rfl, rfl, rfl, rfl, rfl⟩

/-- C8: the Day-Pattern Selector returns `true` whenever the running-pattern
vector is missing (the empty string, the call site's default) or shorter than
7 characters, and otherwise returns `true` exactly when position 1 (Tuesday)
holds the character '1'. -/
theorem C8_day_pattern_selector (d : String) :
    (d.data.length < 7 → is_tuesday d = true) ∧
    (7 ≤ d.data.length → (is_tuesday d = true ↔ d.data.get? 1 = some '1')) := by
  constructor
  · intro h
    unfold is_tuesday
    rw [if_pos (Or.inr h)]
  · intro h
    unfold is_tuesday
    rw [if_neg]
    · simp
    · push_neg
      refine ⟨?_, h⟩
      intro hd
      subst hd
      exact absurd h (by decide)

/-- Witness for C8 at concrete inputs: a 2-character vector falls back to
"runs"; a 7-character vector is decided by its Tuesday flag. -/
theorem C8_day_pattern_selector_witness :
    (is_tuesday "01" = true) ∧
    (is_tuesday "0100000" = true ↔ ("0100000" : String).data.get? 1 = some '1') :=
  ⟨(C8_day_pattern_selector "01").1 (by decide),
   (C8_day_pattern_selector "0100000").2 (by decide)⟩

/-- A small concrete TIPLOC → CRS table for concrete instantiations. -/
def exT2c : List (String × String) := [("T1", "AAA"), ("T2", "BBB"), ("T3", "CCC")]

/-- A small concrete station table for concrete instantiations. -/
def exStations : List (String × Station) :=
  [("AAA", ⟨"Alpha", 51, 0⟩), ("BBB", ⟨"Beta", 52, 1⟩), ("CCC", ⟨"Gamma", 53, 2⟩)]

/-- A Permanent variant of uid `U1` (priority 1). -/
def vPerm : Version :=
  ⟨"U1", "P", "NT", [⟨some "T1", some "0700", none, none⟩, ⟨some "T2", some "0730", none, none⟩]⟩

/-- A first Overlay variant of uid `U1` (priority 2). -/
def vOverA : Version :=
  ⟨"U1", "O", "NT", [⟨some "T1", some "0800", none, none⟩, ⟨some "T2", some "0830", none, none⟩]⟩

/-- A second Overlay variant of uid `U1` (priority 2), with a different
operator and different times than `vOverA`. -/
def vOverB : Version :=
  ⟨"U1", "O", "SE", [⟨some "T1", some "0900", none, none⟩, ⟨some "T2", some "0930", none, none⟩]⟩

/-- C2 counterexample: permuting only the non-winning variants of a group can
change which variant is selected, and the resulting journey, when two
variants tie for the maximal priority.  In the group `[vPerm, vOverA, vOverB]`
(priorities 1, 2, 2) the winner is `vOverA`; swapping the two non-winning
variants `vPerm` and `vOverB` — the winner keeps its position — gives
`[vOverB, vOverA, vPerm]`, whose winner is the tied `vOverB`, and the emitted
journey's operator changes from "NT" to "SE". -/
theorem C2_counterexample :
    (sortVersions [vPerm, vOverA, vOverB]).head? = some vOverA ∧
    (sortVersions [vOverB, vOverA, vPerm]).head? = some vOverB ∧
    vOverA ≠ vOverB ∧
    (processGroup exT2c exStations "U1" [vPerm, vOverA, vOverB]).map Train.op = some "NT" ∧
    (processGroup exT2c exStations "U1" [vOverB, vOverA, vPerm]).map Train.op = some "SE" := by
  exact ⟨by decide, by decide, by decide, rfl, rfl⟩

/-- C2 amended: the selected variant of a uid group is the group's first
variant attaining the maximal STP priority — maximum priority score (C=4,
N=3, O=2, P=1, unrecognized 0) with ties broken by earliest feed arrival
order — and the produced journey depends on the group only through that
variant: any reordering of the group that keeps the same first
maximal-priority variant (in particular, any permutation of the strictly
lower-priority non-winning variants) changes neither the selection nor the
resulting journey.  (Permuting a non-winning variant that ties with the
winner can change the result; see the counterexample.) -/
theorem C2_override_selection (t2c : List (String × String))
    (stations : List (String × Station)) (u : String) (vs vs' : List Version) :
    ((sortVersions vs).head? = firstMax vs) ∧
    (∀ b, firstMax vs = some b →
      b ∈ vs ∧ (∀ v ∈ vs, prio v.stp ≤ prio b.stp) ∧
      ∃ pre suf, vs = pre ++ b :: suf ∧ ∀ v ∈ pre, prio v.stp < prio b.stp) ∧
    (firstMax vs' = firstMax vs →
      processGroup t2c stations u vs' = processGroup t2c stations u vs) := by
  refine ⟨head?_sortVersions vs, ?_, ?_⟩
  · intro b hb
    exact ⟨firstMax_mem hb, firstMax_maximal hb, firstMax_earliest hb⟩
  · intro h
    rw [processGroup_eq_firstMax, processGroup_eq_firstMax, h]

/-- Witness for C2 amended at concrete inputs: in `[vOverA, vPerm]` the
winner is `vOverA`, and reordering to `[vPerm, vOverA]` (which keeps the same
first maximal-priority variant) leaves the resolved journey unchanged. -/
theorem C2_override_selection_witness :
    vOverA ∈ [vOverA, vPerm] ∧
    processGroup exT2c exStations "U1" [vPerm, vOverA] =
      processGroup exT2c exStations "U1" [vOverA, vPerm] :=
  ⟨((C2_override_selection exT2c exStations "U1" [vOverA, vPerm]
      [vPerm, vOverA]).2.1 vOverA (by decide)).1,
   (C2_override_selection exT2c exStations "U1" [vOverA, vPerm]
      [vPerm, vOverA]).2.2 (by decide)⟩

/-- C3: a uid group whose selected (highest-priority, running) variant has
STP indicator Cancellation contributes no journey at all: no train with that
uid appears in the final output. -/
theorem C3_cancellation_suppresses_uid (t2c : List (String × String))
    (stations : List (String × Station)) (recs : List RawRecord) (today : String)
    (u : String) (b : Version)
    (hb : firstMax (group (ingest recs) u) = some b) (hc : b.stp = "C") :
    ∀ t ∈ (main_result t2c stations recs today).trains, t.id ≠ u := by
  intro t ht heq
  obtain ⟨t1, ⟨u', hu', hpg⟩, hop, hteq⟩ := mem_main_result_trains.mp ht
  have hid : t.id = t1.id := by rw [hteq]
  have hid' : t1.id = u' := processGroup_some_id hpg
  have huu : u' = u := by rw [← hid', ← hid, heq]
  subst huu
  rw [processGroup_eq_firstMax, hb] at hpg
  dsimp only at hpg
  rw [if_pos hc] at hpg
  cases hpg

/-- The C3 scenario: uid `U2` has a Permanent variant and a Cancellation
variant, both running on Tuesdays; the Cancellation outranks. -/
def recsC3 : List RawRecord :=
  [ ⟨some "U2", some "P", some "1111111", some "SE",
      [⟨some "T1", some "0900", none, none⟩, ⟨some "T2", some "0930", none, none⟩]⟩,
    ⟨some "U2", some "C", some "1111111", some "SE",
      [⟨some "T1", some "0900", none, none⟩]⟩ ]

/-- Witness for C3 at concrete inputs: the Cancellation variant wins the
`U2` group and no `U2` train reaches the output. -/
theorem C3_cancellation_suppresses_uid_witness :
    firstMax (group (ingest recsC3) "U2") =
      some ⟨"U2", "C", "SE", [⟨some "T1", some "0900", none, none⟩]⟩ ∧
    ((main_result exT2c exStations recsC3 "2026-01-01").trains.all
      (fun t => t.id != "U2")) = true :=
  ⟨by decide,
   List.all_eq_true.mpr fun t ht => bne_iff_ne.mpr
     (C3_cancellation_suppresses_uid exT2c exStations recsC3 "2026-01-01" "U2"
       ⟨"U2", "C", "SE", [⟨some "T1", some "0900", none, none⟩]⟩ (by decide) rfl t ht)⟩

/-- C4: every journey emitted by the pipeline has a path of length at least 2
whose waypoints are non-decreasing on the third component (the timestamp),
for all inputs and in particular regardless of the input stop order; and a
winning variant with fewer than 2 surviving waypoints yields no journey. -/
theorem C4_path_invariants (t2c : List (String × String))
    (st : List (String × Station)) (recs : List RawRecord) (today : String) :
    (∀ t ∈ (main_result t2c st recs today).trains,
       2 ≤ t.path.length ∧ t.path.Pairwise timeLE) ∧
    (∀ u vs b, (sortVersions vs).head? = some b →
       (buildPath t2c st b.locations).length < 2 →
       processGroup t2c st u vs = none) := by
  constructor
  · intro t ht
    obtain ⟨t1, ⟨u, hu, hpg⟩, hop, hteq⟩ := mem_main_result_trains.mp ht
    obtain ⟨best, hbest, hC, hlen, ht1⟩ :=
      (processGroup_eq_some_iff t2c st u (group (ingest recs) u) t1).mp hpg
    have hpath : t.path = t1.path.map reduceWaypoint := by rw [hteq]
    have hpath1 : t1.path = sortPath (buildPath t2c st best.locations) := by rw [ht1]
    constructor
    · rw [hpath, List.length_map, hpath1, sortPath,
        (List.perm_insertionSort timeLE (buildPath t2c st best.locations)).length_eq]
      exact hlen
    · rw [hpath, hpath1]
      refine List.Pairwise.map reduceWaypoint (fun a b hab => ?_)
        (List.sorted_insertionSort timeLE (buildPath t2c st best.locations))
      exact hab
  · intro u vs b hb hlen
    rw [processGroup_eq_firstMax]
    rw [head?_sortVersions] at hb
    rw [hb]
    dsimp only
    by_cases hC : b.stp = "C"
    · rw [if_pos hC]
    · rw [if_neg hC, if_pos hlen]

/-- A variant of uid `U5` with a single stop carrying no time at all: its
path has fewer than 2 waypoints. -/
def vShort : Version := ⟨"U5", "P", "SR", [⟨some "T1", none, none, none⟩]⟩

/-- The C4 scenario: a single `U4` variant whose stops appear out of time
order in the feed (1200, 1100, 1130). -/
def recsC4 : List RawRecord :=
  [ ⟨some "U4", some "P", some "1111111", some "GW",
      [⟨some "T2", some "1200", none, none⟩, ⟨some "T1", some "1100", none, none⟩,
       ⟨some "T3", some "1130", none, none⟩]⟩ ]

/-- Witness for C4 at concrete inputs: the out-of-order `U4` journey is
emitted sorted with 3 waypoints, and the time-less single-stop `U5` group
yields no journey. -/
theorem C4_path_invariants_witness :
    ((main_result exT2c exStations recsC4 "2026-01-01").trains.all
      (fun t => decide (2 ≤ t.path.length ∧ t.path.Pairwise timeLE))) = true ∧
    processGroup exT2c exStations "U5" [vShort] = none :=
  ⟨List.all_eq_true.mpr fun t ht =>
     decide_eq_true ((C4_path_invariants exT2c exStations recsC4 "2026-01-01").1 t ht),
   (C4_path_invariants exT2c exStations recsC4 "2026-01-01").2 "U5" [vShort] vShort
     (by decide) (by decide)⟩

theorem lookup_append {β : Type} (l1 l2 : List (String × β)) (c : String) :
    (l1 ++ l2).lookup c = ((l1.lookup c).orElse fun _ => l2.lookup c) := by
  induction l1 with
  | nil => simp [List.lookup]
  | cons p l ih =>
    obtain ⟨k, v⟩ := p
    by_cases h : c = k
    · simp [List.lookup, h]
    · have e1 : ((k, v) :: l ++ l2).lookup c = (l ++ l2).lookup c := by
        simp [List.lookup, beq_eq_false_iff_ne.mpr h]
      have e2 : ((k, v) :: l).lookup c = l.lookup c := by
        simp [List.lookup, beq_eq_false_iff_ne.mpr h]
      rw [e1, e2, ih]

/-- The `operators` dict built by the final fold holds a key exactly when the
accumulator already held it or some train in the folded list carries it. -/
theorem lookup_collect_aux (ts : List Train) (acc : List (String × Operator)) (c : String) :
    (((ts.foldl
        (fun ops t =>
          if (ops.lookup t.op).isSome then ops
          else ops ++ [(t.op, (KNOWN_OPERATORS.lookup t.op).getD ⟨t.op, "#ffb830"⟩)])
        acc).lookup c).isSome = true) ↔
      ((acc.lookup c).isSome = true ∨ ∃ t ∈ ts, t.op = c) := by
  induction ts generalizing acc with
  | nil => simp
  | cons t ts ih =>
    rw [List.foldl_cons, ih]
    have hstep :
        (((if (acc.lookup t.op).isSome then acc
           else acc ++ [(t.op, (KNOWN_OPERATORS.lookup t.op).getD ⟨t.op, "#ffb830"⟩)]).lookup
            c).isSome = true) ↔
          ((acc.lookup c).isSome = true ∨ t.op = c) := by
      by_cases hm : (acc.lookup t.op).isSome = true
      · rw [if_pos hm]
        constructor
        · exact fun h => Or.inl h
        · rintro (h | h)
          · exact h
          · rw [← h]; exact hm
      · rw [if_neg hm, lookup_append]
        cases hacc : acc.lookup c with
        | some v => simp [hacc]
        | none =>
          simp only [hacc, Option.orElse, Option.isSome_none, Bool.false_eq_true,
            false_or]
          by_cases h : c = t.op
          · simp [List.lookup, h, beq_self_eq_true]
          · simp [List.lookup, beq_eq_false_iff_ne.mpr h]
            exact fun hco => absurd hco.symm h
    rw [hstep]
    constructor
    · rintro ((h | h) | ⟨x, hx, hox⟩)
      · exact Or.inl h
      · exact Or.inr ⟨t, List.mem_cons_self t ts, h⟩
      · exact Or.inr ⟨x, List.mem_cons_of_mem t hx, hox⟩
    · rintro (h | ⟨x, hx, hox⟩)
      · exact Or.inl (Or.inl h)
      · rcases List.mem_cons.mp hx with hx | hx
        · exact Or.inl (Or.inr (hx ▸ hox))
        · exact Or.inr ⟨x, hx, hox⟩

/-- The final `operators` dict holds a key exactly when some train of the
final list carries that operator code. -/
theorem lookup_collectOperators (ts : List Train) (c : String) :
    ((collectOperators ts).lookup c).isSome = true ↔ ∃ t ∈ ts, t.op = c := by
  rw [collectOperators, lookup_collect_aux]
  simp [List.lookup]

/-- C6: every journey whose operator code is absent from the allow-list is
excluded from the final output — all surviving trains carry allow-listed
operators — and the output's operators map holds exactly the operator codes
occurring among the surviving journeys (so an operator with no surviving
journey, or one absent from the allow-list, never appears in it). -/
theorem C6_operator_filter (t2c : List (String × String))
    (st : List (String × Station)) (recs : List RawRecord) (today : String) :
    (∀ t ∈ (main_result t2c st recs today).trains,
       (KNOWN_OPERATORS.lookup t.op).isSome = true) ∧
    (∀ c, (((main_result t2c st recs today).operators.lookup c).isSome = true) ↔
       ∃ t ∈ (main_result t2c st recs today).trains, t.op = c) ∧
    (∀ c, (((main_result t2c st recs today).operators.lookup c).isSome = true) →
       (KNOWN_OPERATORS.lookup c).isSome = true) := by
  have h1 : ∀ t ∈ (main_result t2c st recs today).trains,
      (KNOWN_OPERATORS.lookup t.op).isSome = true := by
    intro t ht
    obtain ⟨t1, ⟨u, hu, hpg⟩, hop, hteq⟩ := mem_main_result_trains.mp ht
    have hto : t.op = t1.op := by rw [hteq]
    rw [hto]; exact hop
  have h2 : ∀ c, (((main_result t2c st recs today).operators.lookup c).isSome = true) ↔
      ∃ t ∈ (main_result t2c st recs today).trains, t.op = c := by
    intro c
    exact lookup_collectOperators _ c
  refine ⟨h1, h2, ?_⟩
  intro c hc
  obtain ⟨t, ht, hop⟩ := (h2 c).mp hc
  rw [← hop]
  exact h1 t ht

/-- The C6 scenario: a valid `X3` journey run by the unknown operator "ZZ"
alongside a valid `U1` journey run by the allow-listed "NT". -/
def recsC6 : List RawRecord :=
  [ ⟨some "X3", some "P", some "1111111", some "ZZ",
      [⟨some "T1", some "1000", none, none⟩, ⟨some "T2", some "1030", none, none⟩]⟩,
    ⟨some "U1", some "P", some "1111111", some "NT",
      [⟨some "T1", some "0800", none, none⟩, ⟨some "T2", some "0830", none, none⟩]⟩ ]

/-- Witness for C6 at concrete inputs: in a run containing a journey by the
unknown operator "ZZ" and one by the allow-listed "NT", every surviving train
is allow-listed, "ZZ" appears in the operators map iff some surviving train
carries it (none does; the internally-built `X3` journey is excluded), and
the code "NT", present in the map, is on the allow-list. -/
theorem C6_operator_filter_witness :
    ((main_result exT2c exStations recsC6 "2026-01-01").trains.all
      (fun t => (KNOWN_OPERATORS.lookup t.op).isSome)) = true ∧
    ((main_result exT2c exStations recsC6 "2026-01-01").operators.lookup "ZZ") = none ∧
    (KNOWN_OPERATORS.lookup "NT").isSome = true :=
  ⟨List.all_eq_true.mpr fun t ht =>
     (C6_operator_filter exT2c exStations recsC6 "2026-01-01").1 t ht,
   by decide,
   (C6_operator_filter exT2c exStations recsC6 "2026-01-01").2.2 "NT" (by decide)⟩

/-- Specification-side check for one emitted train: the uid's winning (first
maximal-priority) variant `b` exists and the train's display names are the
resolved-station names of `b`'s first and last raw (feed-ordered) stops. -/
def namesFromRawStops (t2c : List (String × String)) (st : List (String × Station))
    (recs : List RawRecord) (t : Train) : Bool :=
  match firstMax (group (ingest recs) t.id) with
  | none => false
  | some b =>
    t.from_ == rawName t2c st b.locations.head? &&
    t.to_ == rawName t2c st b.locations.getLast?

/-- C7: for every journey emitted by the pipeline, the origin and destination
display names are resolved from the winning variant's first and last raw
stops in feed order — not from the ends of the time-sorted waypoint list.
The second and third conjuncts exhibit this on a concrete feed whose stops
arrive out of time order (1200, 1100, 1130): the emitted names are those of
the raw first/last stops ("Beta", "Gamma") even though time-sorting makes
the path start at the 1100 stop ("Alpha") and end at the 1200 one ("Beta"). -/
theorem C7_names_from_raw_stops (t2c : List (String × String))
    (st : List (String × Station)) (recs : List RawRecord) (today : String) :
    ((main_result t2c st recs today).trains.all (namesFromRawStops t2c st recs)) = true ∧
    ((main_result exT2c exStations recsC4 "2026-01-01").trains.map
        (fun t => (t.from_, t.to_))) = [("Beta", "Gamma")] ∧
    ((main_result exT2c exStations recsC4 "2026-01-01").trains.map
        (fun t => t.path.map (fun w => w.2.2))) = [[39600, 41400, 43200]] := by
  refine ⟨?_, by decide, by decide⟩
  refine List.all_eq_true.mpr fun t ht => ?_
  obtain ⟨t1, ⟨u, hu, hpg⟩, hop, hteq⟩ := mem_main_result_trains.mp ht
  obtain ⟨best, hbest, hC, hlen, ht1⟩ :=
    (processGroup_eq_some_iff t2c st u (group (ingest recs) u) t1).mp hpg
  have hid : t.id = u := by rw [hteq, ht1]
  unfold namesFromRawStops
  rw [hid, hbest]
  dsimp only
  rw [hteq, ht1]
  simp

/-- An indicator that is none of C, N, O, P is absent from `STP_PRIORITY`. -/
theorem lookup_STP_eq_none {s : String} (h1 : s ≠ "C") (h2 : s ≠ "N") (h3 : s ≠ "O")
    (h4 : s ≠ "P") : STP_PRIORITY.lookup s = none := by
  have e1 : (s == "C") = false := beq_eq_false_iff_ne.mpr h1
  have e2 : (s == "N") = false := beq_eq_false_iff_ne.mpr h2
  have e3 : (s == "O") = false := beq_eq_false_iff_ne.mpr h3
  have e4 : (s == "P") = false := beq_eq_false_iff_ne.mpr h4
  simp only [STP_PRIORITY, List.lookup, e1, e2, e3, e4]

/-- Every recognized STP indicator scores at least 1. -/
theorem lookup_STP_pos {s : String} {p : Int} (h : STP_PRIORITY.lookup s = some p) :
    1 ≤ p := by
  by_cases h1 : s = "C"
  · subst h1
    have hp : some (4 : Int) = some p := h
    injection hp with hp
    omega
  · by_cases h2 : s = "N"
    · subst h2
      have hp : some (3 : Int) = some p := h
      injection hp with hp
      omega
    · by_cases h3 : s = "O"
      · subst h3
        have hp : some (2 : Int) = some p := h
        injection hp with hp
        omega
      · by_cases h4 : s = "P"
        · subst h4
          have hp : some (1 : Int) = some p := h
          injection hp with hp
          omega
        · rw [lookup_STP_eq_none h1 h2 h3 h4] at h
          exact Option.noConfusion h

/-- The C10 scenario: uid `U7`'s only variant carries the unrecognized STP
indicator "Q". -/
def recsC10 : List RawRecord :=
  [ ⟨some "U7", some "Q", some "1111111", some "NT",
      [⟨some "T1", some "0600", none, none⟩, ⟨some "T2", some "0630", none, none⟩]⟩ ]

/-- The ingested `U7` variant with unrecognized indicator "Q". -/
def vQ : Version :=
  ⟨"U7", "Q", "NT", [⟨some "T1", some "0600", none, none⟩, ⟨some "T2", some "0630", none, none⟩]⟩

/-- A raw record with no STP indicator field at all. -/
def rNoStp : RawRecord :=
  ⟨some "U10", none, some "1111111", some "GR", [⟨some "T1", none, none, some "1500"⟩]⟩

/-- The variant `rNoStp` ingests to: its indicator defaults to Permanent. -/
def vNoStp : Version := ⟨"U10", "P", "GR", [⟨some "T1", none, none, some "1500"⟩]⟩

/-- C10: a raw record with no STP indicator field is ingested as Permanent
("P"); an unrecognized indicator scores priority 0, strictly below
Permanent's 1, so an unrecognized-indicator variant is selected only when
every running variant of its uid group is unrecognized; and such a winner is
not treated as cancelled — the `U7` group, whose only variant carries
indicator "Q", still produces a journey in the final output. -/
theorem C10_unrecognized_stp :
    (∀ r : RawRecord, r.CIF_stp_indicator = none → ∀ v ∈ ingest [r], v.stp = "P") ∧
    (∀ s : String, s ∉ ["C", "N", "O", "P"] → prio s = 0 ∧ prio s < prio "P") ∧
    (∀ vs b, firstMax vs = some b → STP_PRIORITY.lookup b.stp = none →
       ∀ v ∈ vs, STP_PRIORITY.lookup v.stp = none) ∧
    ((main_result exT2c exStations recsC10 "2026-01-01").trains.map
      (fun t => (t.id, t.op))) = [("U7", "NT")] := by
  refine ⟨?_, ?_, ?_, by decide⟩
  · intro r h v hv
    unfold ingest at hv
    obtain ⟨x, hx, hfx⟩ := List.mem_filterMap.mp hv
    have hxr : x = r := by simpa using hx
    subst hxr
    rw [h] at hfx
    by_cases h1 : x.CIF_train_uid.getD "" = "" ∨ x.schedule_location = []
    · rw [if_pos h1] at hfx; cases hfx
    · rw [if_neg h1] at hfx
      by_cases h2 : ¬ is_tuesday (x.schedule_days_runs.getD "")
      · rw [if_pos h2] at hfx; cases hfx
      · rw [if_neg h2] at hfx
        have hrec := Option.some.inj hfx
        rw [← hrec]
        rfl
  · intro s hs
    simp only [List.mem_cons, List.mem_singleton, not_or] at hs
    obtain ⟨h1, h2, h3, h4, -⟩ := hs
    have hnone : STP_PRIORITY.lookup s = none := lookup_STP_eq_none h1 h2 h3 h4
    constructor
    · simp [prio, hnone]
    · have : prio s = 0 := by simp [prio, hnone]
      rw [this]; decide
  · intro vs b hb hnone v hv
    cases hlv : STP_PRIORITY.lookup v.stp with
    | none => rfl
    | some p =>
      exfalso
      have hmax := firstMax_maximal hb v hv
      have hpb : prio b.stp = 0 := by simp [prio, hnone]
      have hpv : prio v.stp = p := by simp [prio, hlv]
      have hpos := lookup_STP_pos hlv
      omega

/-- Witness for C10 at concrete inputs: the indicator-less record ingests as
Permanent; "Q" scores 0, below Permanent; and in the singleton unrecognized
group the winner's indicator is indeed unrecognized. -/
theorem C10_unrecognized_stp_witness :
    vNoStp.stp = "P" ∧ (prio "Q" = 0 ∧ prio "Q" < prio "P") ∧
    STP_PRIORITY.lookup vQ.stp = none :=
  ⟨C10_unrecognized_stp.1 rNoStp rfl vNoStp (by decide),
   C10_unrecognized_stp.2.1 "Q" (by decide),
   C10_unrecognized_stp.2.2.1 [vQ] vQ (by decide) (by decide) vQ (by decide)⟩

/-- C9 counterexample: the output embeds the run date (`datetime.now()` in
`meta.date`), so two runs of the pipeline on identical inputs and identical
reference tables, performed on different calendar dates, produce different
artifacts — byte-identity does not hold unconditionally. -/
theorem C9_output_differs_across_dates :
    main_result [] [] [] "2026-01-01" ≠ main_result [] [] [] "2026-01-02" := by
  decide

/-- C9 amended: the pipeline is deterministic — its output is a pure function
of the schedule records, the two reference tables and the run date, so two
runs with identical inputs, identical table snapshots and the same clock date
produce identical output structures (hence byte-identical serialized
artifacts, the serializer being a fixed function of this structure). -/
theorem C9_deterministic_given_date (t2c t2c' : List (String × String))
    (st st' : List (String × Station)) (recs recs' : List RawRecord) (d d' : String)
    (h1 : t2c = t2c') (h2 : st = st') (h3 : recs = recs') (h4 : d = d') :
    main_result t2c st recs d = main_result t2c' st' recs' d' := by
  subst h1; subst h2; subst h3; subst h4; rfl

/-- Witness for C9 amended at concrete inputs. -/
theorem C9_deterministic_given_date_witness :
    main_result [("TIPA", "AAA")] [] [] "2026-01-01" =
      main_result [("TIPA", "AAA")] [] [] "2026-01-01" :=
  C9_deterministic_given_date [("TIPA", "AAA")] [("TIPA", "AAA")] [] [] [] []
    "2026-01-01" "2026-01-01" rfl rfl rfl rfl

end Pulse
